import Mathlib

/-!
Verification of the link- and path-resolution subsystem of the docs page
(`src/app/docs/[[...slug]]/page.tsx`).

Strings are modelled as lists of characters (`Str`), which matches the
character-by-character semantics of the JavaScript string operations used by
the source (`endsWith`, `slice`, `split` with a limit, `startsWith`,
regex tests over single segments).  `chars` converts a Lean string literal to
this representation.
-/

abbrev Str : Type := List Char

/-- Convert a string literal to the character-list representation. -/
def chars (s : String) : Str := s.toList

/-- Joining with a slash: the effect of Node's `path.join` on the simple
relative segments used by the source. -/
def joinP (a b : Str) : Str := a ++ chars "/" ++ b

/-- JavaScript `Array.prototype.join("/")`. -/
def joinSegs : List Str → Str
  | [] => []
  | [s] => s
  | s :: rest => s ++ chars "/" ++ joinSegs rest

/-!
## Href Candidate Builder (`buildHrefCandidates`, page.tsx lines 231–243)
-/

/-- From page.tsx: build the ordered list of resolvable href variants for
known synced-link shapes.
`path.slice(0, -3)` / `path.slice(0, -1)` are `take (length - n)`. -/
def buildHrefCandidates (path : Str) : List Str :=
  if (chars ".md").isSuffixOf path then
    [path, path.take (path.length - 3) ++ chars ".mdx"]
  else if (chars ".mdx").isSuffixOf path then
    [path]
  else if (chars "/").isSuffixOf path then
    [path.take (path.length - 1) ++ chars ".mdx", path ++ chars "index.mdx"]
  else
    [path]

theorem suffixOf_append_self (l r : Str) : r.isSuffixOf (l ++ r) = true := by
  rw [List.isSuffixOf_iff_suffix]
  exact List.suffix_append l r

theorem take_sub_append (q s : Str) :
    (q ++ s).take ((q ++ s).length - s.length) = q := by
  have h : (q ++ s).length - s.length = q.length := by
    simp [List.length_append]
  rw [h]
  exact List.take_left q s

/-- A list ending in `.mdx` does not end in `.md`, and a list ending in a
character other than `d` or `x` ends in neither. -/
theorem not_suffix_of_last_ne (s t : Str) (hs : s ≠ []) (ht : t ≠ [])
    (h : s.getLast hs ≠ t.getLast ht) : s.isSuffixOf t = false := by
  by_contra hc
  have hsuf : s <:+ t := by
    rw [← List.isSuffixOf_iff_suffix]
    simpa using hc
  obtain ⟨u, hu⟩ := hsuf
  apply h
  subst hu
  rw [List.getLast_append_of_ne_nil hs]

theorem append_ne_nil_right (u v : Str) (hv : v ≠ []) : u ++ v ≠ [] :=
  fun hc => hv (List.append_eq_nil.mp hc).2

/-- C1: `buildHrefCandidates` returns, for every input path, exactly the
ordered list the shape rules prescribe, checked in priority order: a path
ending in `.md` yields `[path, path with .md replaced by .mdx]` (literal
`.md` first); a path ending in `.mdx` yields `[path]`; a path ending in `/`
yields `[path without slash + ".mdx", path + "index.mdx"]` (sibling file
before nested index, so for `"docs/"` the first candidate is `"docs.mdx"`);
any other path yields `[path]` unchanged. -/
theorem buildHrefCandidates_shape_rules (q p : Str) :
    buildHrefCandidates (q ++ chars ".md") = [q ++ chars ".md", q ++ chars ".mdx"] ∧
    ((chars ".mdx").isSuffixOf p = true → buildHrefCandidates p = [p]) ∧
    buildHrefCandidates (q ++ chars "/") =
      [q ++ chars ".mdx", q ++ chars "/" ++ chars "index.mdx"] ∧
    ((chars ".md").isSuffixOf p = false → (chars ".mdx").isSuffixOf p = false →
      (chars "/").isSuffixOf p = false → buildHrefCandidates p = [p]) ∧
    buildHrefCandidates (chars "docs/") = [chars "docs.mdx", chars "docs/index.mdx"] := by
  refine ⟨?_, ?_, ?_, ?_, by decide⟩
  · simp only [buildHrefCandidates, suffixOf_append_self, if_true]
    rw [show (3 : Nat) = (chars ".md").length from rfl, take_sub_append]
  · intro h
    have hsuf : chars ".mdx" <:+ p := by
      rw [← List.isSuffixOf_iff_suffix]; simpa using h
    obtain ⟨u, hu⟩ := hsuf
    subst hu
    have hmd : (chars ".md").isSuffixOf (u ++ chars ".mdx") = false := by
      apply not_suffix_of_last_ne _ _ (by decide) (append_ne_nil_right _ _ (by decide))
      rw [List.getLast_append_of_ne_nil (by decide)]
      decide
    simp [buildHrefCandidates, hmd, suffixOf_append_self]
  · have hmd : (chars ".md").isSuffixOf (q ++ chars "/") = false := by
      apply not_suffix_of_last_ne _ _ (by decide) (append_ne_nil_right _ _ (by decide))
      rw [List.getLast_append_of_ne_nil (by decide)]
      decide
    have hmdx : (chars ".mdx").isSuffixOf (q ++ chars "/") = false := by
      apply not_suffix_of_last_ne _ _ (by decide) (append_ne_nil_right _ _ (by decide))
      rw [List.getLast_append_of_ne_nil (by decide)]
      decide
    simp only [buildHrefCandidates, hmd, hmdx, suffixOf_append_self,
      if_true, Bool.false_eq_true, if_false]
    rw [show (1 : Nat) = (chars "/").length from rfl, take_sub_append]
  · intro h1 h2 h3
    simp [buildHrefCandidates, h1, h2, h3]

theorem buildHrefCandidates_shape_rules_witness :
    buildHrefCandidates (chars "a.mdx") = [chars "a.mdx"] ∧
    buildHrefCandidates (chars "img.png") = [chars "img.png"] :=
  ⟨(buildHrefCandidates_shape_rules [] (chars "a.mdx")).2.1 (by decide),
   (buildHrefCandidates_shape_rules [] (chars "img.png")).2.2.2.1
      (by decide) (by decide) (by decide)⟩

/-!
## Href Resolver (`resolveInternalHref`, page.tsx lines 254–291)
-/

/-- JavaScript `s.split(sep, 2)` destructured as
`const [a, b = ""] = ...`: `a` is the text before the first separator
(or all of `s`), `b` the text between the first and second separators
(or empty).  Anything after a second separator is dropped by the limit. -/
def jsSplit2 (sep : Char) (l : Str) : Str × Str :=
  (l.takeWhile (fun c => c != sep),
   ((l.dropWhile (fun c => c != sep)).drop 1).takeWhile (fun c => c != sep))

/-- Character class `[a-z]` under the regex `i` flag. -/
def isAsciiLetter (c : Char) : Bool :=
  ('a' ≤ c && c ≤ 'z') || ('A' ≤ c && c ≤ 'Z')

/-- Character class `[a-z\d+.-]` under the regex `i` flag. -/
def isSchemeChar (c : Char) : Bool :=
  isAsciiLetter c || ('0' ≤ c && c ≤ '9') || c = '+' || c = '.' || c = '-'

/-- Scan for the `:` that closes a URI scheme, over scheme characters. -/
def schemeTail : Str → Bool
  | [] => false
  | c :: cs => if c = ':' then true else if isSchemeChar c then schemeTail cs else false

/-- The regex test `/^[a-z][a-z\d+.-]*:/i.test(href)`. -/
def schemeLike : Str → Bool
  | [] => false
  | c :: cs => isAsciiLetter c && schemeTail cs

/-- The guard of `resolveInternalHref`: site-absolute, fragment-only, or
scheme-prefixed hrefs are not internal relative docs links. -/
def isSpecialHref (href : Str) : Bool :=
  (chars "/").isPrefixOf href || (chars "#").isPrefixOf href || schemeLike href

/-- `href.split("#", 2)` then `withoutHash.split("?", 2)`: returns
`(rawPath, queryPart, hashPart)`. -/
def splitHrefParts (href : Str) : Str × Str × Str :=
  let hsplit := jsSplit2 '#' href
  let qsplit := jsSplit2 '?' hsplit.1
  (qsplit.1, qsplit.2, hsplit.2)

/-- The reconstructed suffix: `?query` when the query part is truthy
(non-empty), then `#hash` when the hash part is truthy. -/
def hrefSuffix (queryPart hashPart : Str) : Str :=
  (if queryPart = [] then [] else '?' :: queryPart) ++
  (if hashPart = [] then [] else '#' :: hashPart)

/-- Make `rawPath` explicitly relative: prepend `./` unless the path already
starts with `./` or `../`. -/
def explicitRelative (rawPath : Str) : Str :=
  if (chars "./").isPrefixOf rawPath || (chars "../").isPrefixOf rawPath then rawPath
  else chars "./" ++ rawPath

/-- The candidate loop: first candidate for which the page-index lookup
returns a hit.  The lookup stands for `source.getPageByHref(candidate,
{dir, language})`, already closed over the current page directory and
locale, returning the canonical `target.page.url` on a hit. -/
def firstHit (lookup : Str → Option Str) : List Str → Option Str
  | [] => none
  | c :: cs =>
    match lookup c with
    | some u => some u
    | none => firstHit lookup cs

/-- From page.tsx: resolve internal docs links from synced markdown via the
page index, preserving `?query` and `#hash`, falling back to the original
href when nothing resolves. -/
def resolveInternalHref (lookup : Str → Option Str) (href : Str) : Str :=
  if isSpecialHref href then href
  else
    let parts := splitHrefParts href
    match firstHit lookup (buildHrefCandidates (explicitRelative parts.1)) with
    | some url => url ++ hrefSuffix parts.2.1 parts.2.2
    | none => href

theorem firstHit_of_all_none (lookup : Str → Option Str) (cs : List Str)
    (h : ∀ c ∈ cs, lookup c = none) : firstHit lookup cs = none := by
  induction cs with
  | nil => rfl
  | cons c cs ih =>
    have hc := h c (List.mem_cons_self c cs)
    simp only [firstHit, hc]
    exact ih (fun x hx => h x (List.mem_cons_of_mem c hx))

theorem firstHit_some_exists (lookup : Str → Option Str) (cs : List Str)
    (u : Str) (h : firstHit lookup cs = some u) : ∃ c, lookup c = some u := by
  induction cs with
  | nil => exact absurd h (by simp [firstHit])
  | cons c cs ih =>
    by_cases hc : lookup c = none
    · simp only [firstHit, hc] at h
      exact ih h
    · obtain ⟨v, hv⟩ := Option.ne_none_iff_exists'.mp hc
      simp only [firstHit, hv] at h
      exact ⟨c, hv.trans h⟩

/-- C2: `resolveInternalHref` returns its input unchanged when the href is
site-absolute, fragment-only, or scheme-prefixed, and also when it is
relative but no generated candidate resolves in the page index. -/
theorem resolveInternalHref_unchanged (lookup : Str → Option Str) (h : Str)
    (hyp : isSpecialHref h = true ∨
      ∀ c ∈ buildHrefCandidates (explicitRelative (splitHrefParts h).1),
        lookup c = none) :
    resolveInternalHref lookup h = h := by
  rcases hyp with hs | hall
  · simp [resolveInternalHref, hs]
  · by_cases hs : isSpecialHref h = true
    · simp [resolveInternalHref, hs]
    · simp only [resolveInternalHref, hs, if_false,
        firstHit_of_all_none lookup _ hall]
      simp

theorem resolveInternalHref_unchanged_witness :
    resolveInternalHref (fun _ => none) (chars "/absolute/page") =
      chars "/absolute/page" ∧
    resolveInternalHref (fun _ => none) (chars "missing.md") =
      chars "missing.md" :=
  ⟨resolveInternalHref_unchanged (fun _ => none) (chars "/absolute/page")
      (Or.inl (by decide)),
   resolveInternalHref_unchanged (fun _ => none) (chars "missing.md")
      (Or.inr (fun c _ => rfl))⟩

theorem takeWhile_all_of_no_sep (sep : Char) (l : Str) (h : ∀ c ∈ l, c ≠ sep) :
    l.takeWhile (fun c => c != sep) = l := by
  induction l with
  | nil => rfl
  | cons a l ih =>
    have ha : a ≠ sep := h a (List.mem_cons_self a l)
    simp only [List.takeWhile_cons, bne_iff_ne, ne_eq, ha, not_false_eq_true,
      if_true, List.cons.injEq, true_and]
    exact ih (fun c hc => h c (List.mem_cons_of_mem a hc))

theorem dropWhile_nil_of_no_sep (sep : Char) (l : Str) (h : ∀ c ∈ l, c ≠ sep) :
    l.dropWhile (fun c => c != sep) = [] := by
  induction l with
  | nil => rfl
  | cons a l ih =>
    have ha : a ≠ sep := h a (List.mem_cons_self a l)
    simp only [List.dropWhile_cons, bne_iff_ne, ne_eq, ha, not_false_eq_true, if_true]
    exact ih (fun c hc => h c (List.mem_cons_of_mem a hc))

theorem takeWhile_append_sep (sep : Char) (l r : Str) (h : ∀ c ∈ l, c ≠ sep) :
    (l ++ sep :: r).takeWhile (fun c => c != sep) = l := by
  induction l with
  | nil => simp [List.takeWhile_cons]
  | cons a l ih =>
    have ha : a ≠ sep := h a (List.mem_cons_self a l)
    simp only [List.cons_append, List.takeWhile_cons, bne_iff_ne, ne_eq, ha,
      not_false_eq_true, if_true, List.cons.injEq, true_and]
    exact ih (fun c hc => h c (List.mem_cons_of_mem a hc))

theorem dropWhile_append_sep (sep : Char) (l r : Str) (h : ∀ c ∈ l, c ≠ sep) :
    (l ++ sep :: r).dropWhile (fun c => c != sep) = sep :: r := by
  induction l with
  | nil => simp [List.dropWhile_cons]
  | cons a l ih =>
    have ha : a ≠ sep := h a (List.mem_cons_self a l)
    simp only [List.cons_append, List.dropWhile_cons, bne_iff_ne, ne_eq, ha,
      not_false_eq_true, if_true]
    exact ih (fun c hc => h c (List.mem_cons_of_mem a hc))

theorem jsSplit2_of_no_sep (sep : Char) (l : Str) (h : ∀ c ∈ l, c ≠ sep) :
    jsSplit2 sep l = (l, []) := by
  simp [jsSplit2, takeWhile_all_of_no_sep sep l h, dropWhile_nil_of_no_sep sep l h]

theorem jsSplit2_around_sep (sep : Char) (l r : Str)
    (hl : ∀ c ∈ l, c ≠ sep) (hr : ∀ c ∈ r, c ≠ sep) :
    jsSplit2 sep (l ++ sep :: r) = (l, r) := by
  simp [jsSplit2, takeWhile_append_sep sep l r hl, dropWhile_append_sep sep l r hl,
    takeWhile_all_of_no_sep sep r hr]

/-- For an href assembled from a path, query and fragment in which the
delimiters are unambiguous, the code's two limited splits recover exactly
those three components. -/
theorem splitHrefParts_decomp (p q f : Str)
    (hp : ∀ c ∈ p, c ≠ '#' ∧ c ≠ '?') (hq : ∀ c ∈ q, c ≠ '#' ∧ c ≠ '?')
    (hf : ∀ c ∈ f, c ≠ '#') :
    splitHrefParts (p ++ hrefSuffix q f) = (p, q, f) := by
  have hph : ∀ c ∈ p, c ≠ '#' := fun c hc => (hp c hc).1
  have hpq : ∀ c ∈ p, c ≠ '?' := fun c hc => (hp c hc).2
  have hqh : ∀ c ∈ q, c ≠ '#' := fun c hc => (hq c hc).1
  have hqq : ∀ c ∈ q, c ≠ '?' := fun c hc => (hq c hc).2
  have hnos : ∀ c ∈ p ++ '?' :: q, c ≠ '#' := by
    intro c hc
    rcases List.mem_append.mp hc with hcp | hcq
    · exact hph c hcp
    · rcases List.mem_cons.mp hcq with rfl | hcq2
      · decide
      · exact hqh c hcq2
  by_cases hqe : q = [] <;> by_cases hfe : f = []
  · rw [show hrefSuffix q f = [] from by simp [hrefSuffix, hqe, hfe]]
    simp only [List.append_nil, splitHrefParts, jsSplit2_of_no_sep '#' p hph,
      jsSplit2_of_no_sep '?' p hpq, hqe, hfe]
  · rw [show hrefSuffix q f = '#' :: f from by simp [hrefSuffix, hqe, hfe]]
    simp only [splitHrefParts, jsSplit2_around_sep '#' p f hph hf,
      jsSplit2_of_no_sep '?' p hpq, hqe]
  · rw [show hrefSuffix q f = '?' :: q from by simp [hrefSuffix, hqe, hfe]]
    simp only [splitHrefParts]
    rw [jsSplit2_of_no_sep '#' _ hnos]
    simp only [jsSplit2_around_sep '?' p q hpq hqq, hfe]
  · rw [show hrefSuffix q f = ('?' :: q) ++ '#' :: f from by simp [hrefSuffix, hqe, hfe],
      show p ++ (('?' :: q) ++ '#' :: f) = (p ++ '?' :: q) ++ '#' :: f from by simp]
    simp only [splitHrefParts]
    rw [jsSplit2_around_sep '#' _ f hnos hf]
    simp only [jsSplit2_around_sep '?' p q hpq hqq]

/-- A tiny concrete page index: the single page `a`, with canonical URL
`/docs/a`, addressed by the candidate `./a`. -/
def sampleIndex : Str → Option Str :=
  fun c => if c = chars "./a" then some (chars "/docs/a") else none

/-- C3 counterexample: for the relative href `"a#b#c"` (path `a`, fragment
`b#c`), resolution against an index containing `a` yields `"/docs/a#b"`:
the limited `split("#", 2)` drops everything after the second `#`, so the
result does not end with the input's query/fragment suffix `"#b#c"`. -/
theorem resolveInternalHref_suffix_cex :
    resolveInternalHref sampleIndex (chars "a#b#c") = chars "/docs/a#b" ∧
    (chars "#b#c").isSuffixOf (resolveInternalHref sampleIndex (chars "a#b#c")) =
      false := by
  decide

/-- C3 (amended): for every relative href assembled as
`path ++ optional "?query" ++ optional "#fragment"` where the path and query
contain no `#` or `?` and the fragment contains no `#`, the result of
resolution ends with exactly that query/fragment suffix, whatever final path
is chosen (a resolved canonical URL or the original href).  Hrefs with a
repeated delimiter may instead have the text after the second occurrence
dropped from a rewritten link. -/
theorem resolveInternalHref_preserves_suffix (lookup : Str → Option Str)
    (p q f : Str)
    (hp : ∀ c ∈ p, c ≠ '#' ∧ c ≠ '?') (hq : ∀ c ∈ q, c ≠ '#' ∧ c ≠ '?')
    (hf : ∀ c ∈ f, c ≠ '#') :
    (hrefSuffix q f).isSuffixOf
      (resolveInternalHref lookup (p ++ hrefSuffix q f)) = true := by
  unfold resolveInternalHref
  by_cases hs : isSpecialHref (p ++ hrefSuffix q f) = true
  · simp only [hs, if_true]
    exact suffixOf_append_self p (hrefSuffix q f)
  · simp only [hs, if_false, Bool.false_eq_true]
    rw [splitHrefParts_decomp p q f hp hq hf]
    cases hfh : firstHit lookup (buildHrefCandidates (explicitRelative p)) with
    | none => exact suffixOf_append_self p (hrefSuffix q f)
    | some url => exact suffixOf_append_self url (hrefSuffix q f)

theorem resolveInternalHref_preserves_suffix_witness :
    (hrefSuffix (chars "x=1") (chars "y")).isSuffixOf
      (resolveInternalHref sampleIndex
        (chars "foo" ++ hrefSuffix (chars "x=1") (chars "y"))) = true :=
  resolveInternalHref_preserves_suffix sampleIndex
    (chars "foo") (chars "x=1") (chars "y")
    (by decide) (by decide) (by decide)

theorem prefixOf_append_left (s l r : Str) (h : s.isPrefixOf l = true) :
    s.isPrefixOf (l ++ r) = true := by
  rw [List.isPrefixOf_iff_prefix] at h ⊢
  exact h.trans (List.prefix_append l r)

/-- C4: resolution is idempotent once the page index is fixed, the index
returning site-absolute canonical URLs (every URL it produces starts with
`/`, as the canonical docs URLs do): resolving an already-resolved href is a
no-op, because the result is either the unresolved original or a
site-absolute URL that the resolver leaves untouched. -/
theorem resolveInternalHref_idem (lookup : Str → Option Str)
    (habs : ∀ c u, lookup c = some u → (chars "/").isPrefixOf u = true)
    (h : Str) :
    resolveInternalHref lookup (resolveInternalHref lookup h) =
      resolveInternalHref lookup h := by
  by_cases hs : isSpecialHref h = true
  · have hid : resolveInternalHref lookup h = h := by
      simp [resolveInternalHref, hs]
    rw [hid]
    exact hid
  · cases hfh : firstHit lookup
        (buildHrefCandidates (explicitRelative (splitHrefParts h).1)) with
    | none =>
      have hid : resolveInternalHref lookup h = h := by
        simp only [resolveInternalHref, hs, if_false, Bool.false_eq_true, hfh]
      rw [hid]
      exact hid
    | some url =>
      have hr : resolveInternalHref lookup h =
          url ++ hrefSuffix (splitHrefParts h).2.1 (splitHrefParts h).2.2 := by
        simp only [resolveInternalHref, hs, if_false, Bool.false_eq_true, hfh]
      obtain ⟨c, hc⟩ := firstHit_some_exists lookup _ url hfh
      have hspec : isSpecialHref
          (url ++ hrefSuffix (splitHrefParts h).2.1 (splitHrefParts h).2.2) = true := by
        unfold isSpecialHref
        rw [prefixOf_append_left _ _ _ (habs c url hc)]
        simp
      rw [hr]
      simp [resolveInternalHref, hspec]

theorem resolveInternalHref_idem_witness :
    resolveInternalHref sampleIndex (resolveInternalHref sampleIndex (chars "a")) =
      resolveInternalHref sampleIndex (chars "a") :=
  resolveInternalHref_idem sampleIndex
    (fun c u hcu => by
      unfold sampleIndex at hcu
      split at hcu
      · rw [← Option.some.inj hcu]
        decide
      · exact absurd hcu (by simp))
    (chars "a")

/-!
## Route Classifier (`isApiPage`, page.tsx lines 302–337)
-/

/-- Substring containment, the regex test `/pat/.test(s)` for a literal
pattern `pat`. -/
def strContains (s pat : Str) : Bool :=
  s.tails.any (fun t => pat.isPrefixOf t)

/-- From page.tsx: the per-segment disjunction of the `slug.some(...)`
callback, in source order: the five HTTP-verb `startsWith` checks, the
`/_(get|post|patch|delete|put)$/` test, the
`/^(predict|extract|generate|create|update|delete|retrieve|list|destroy|partial_update|stats)/`
test, the `/_auth_|authentication/` and `/knowledge_panel/` tests, and the
`/_(create|update|delete|retrieve|list|destroy|partial_update|stats)$/` test. -/
def segmentIsApi (s : Str) : Bool :=
  (chars "get-").isPrefixOf s || (chars "post-").isPrefixOf s ||
  (chars "patch-").isPrefixOf s || (chars "delete-").isPrefixOf s ||
  (chars "put-").isPrefixOf s ||
  (chars "_get").isSuffixOf s || (chars "_post").isSuffixOf s ||
  (chars "_patch").isSuffixOf s || (chars "_delete").isSuffixOf s ||
  (chars "_put").isSuffixOf s ||
  (chars "predict").isPrefixOf s || (chars "extract").isPrefixOf s ||
  (chars "generate").isPrefixOf s || (chars "create").isPrefixOf s ||
  (chars "update").isPrefixOf s || (chars "delete").isPrefixOf s ||
  (chars "retrieve").isPrefixOf s || (chars "list").isPrefixOf s ||
  (chars "destroy").isPrefixOf s || (chars "partial_update").isPrefixOf s ||
  (chars "stats").isPrefixOf s ||
  strContains s (chars "_auth_") || strContains s (chars "authentication") ||
  strContains s (chars "knowledge_panel") ||
  (chars "_create").isSuffixOf s || (chars "_update").isSuffixOf s ||
  (chars "_delete").isSuffixOf s || (chars "_retrieve").isSuffixOf s ||
  (chars "_list").isSuffixOf s || (chars "_destroy").isSuffixOf s ||
  (chars "_partial_update").isSuffixOf s || (chars "_stats").isSuffixOf s

/-- From page.tsx: the known API path patterns — co-occurrence of a
namespace segment with one of its version/resource/management segments,
via `params.slug.includes(...)`. -/
def routePairsApi (slug : List Str) : Bool :=
  (slug.contains (chars "Product-Opener") &&
    (slug.contains (chars "v2") || slug.contains (chars "v3"))) ||
  (slug.contains (chars "Open-prices") &&
    (slug.contains (chars "prices") || slug.contains (chars "auth") ||
     slug.contains (chars "users") || slug.contains (chars "locations") ||
     slug.contains (chars "proofs"))) ||
  (slug.contains (chars "Robotoff") &&
    (slug.contains (chars "predict") ||
     slug.contains (chars "annotation-management") ||
     slug.contains (chars "insight-management")))

/-- From page.tsx: `params.slug?.some(...) || (params.slug && (...))`;
an absent slug is falsy. -/
def isApiPage (slug? : Option (List Str)) : Bool :=
  match slug? with
  | none => false
  | some slug => slug.any segmentIsApi || routePairsApi slug

/-- Spec 4.4: HTTP-verb-prefixed naming pattern (`get-`, `post-`, `patch-`,
`delete-`, `put-` prefixes) or HTTP-verb-suffixed form. -/
def httpVerbPattern (s : Str) : Bool :=
  (chars "get-").isPrefixOf s || (chars "post-").isPrefixOf s ||
  (chars "patch-").isPrefixOf s || (chars "delete-").isPrefixOf s ||
  (chars "put-").isPrefixOf s ||
  (chars "_get").isSuffixOf s || (chars "_post").isSuffixOf s ||
  (chars "_patch").isSuffixOf s || (chars "_delete").isSuffixOf s ||
  (chars "_put").isSuffixOf s

/-- Spec 4.4: known action-verb pattern — one of the listed action verbs at
the start of the segment (possibly followed by more text), or an
action-verb-suffixed form (`_create`, ..., `_stats`). -/
def actionVerbPattern (s : Str) : Bool :=
  (chars "predict").isPrefixOf s || (chars "extract").isPrefixOf s ||
  (chars "generate").isPrefixOf s || (chars "create").isPrefixOf s ||
  (chars "update").isPrefixOf s || (chars "delete").isPrefixOf s ||
  (chars "retrieve").isPrefixOf s || (chars "list").isPrefixOf s ||
  (chars "destroy").isPrefixOf s || (chars "partial_update").isPrefixOf s ||
  (chars "stats").isPrefixOf s ||
  (chars "_create").isSuffixOf s || (chars "_update").isSuffixOf s ||
  (chars "_delete").isSuffixOf s || (chars "_retrieve").isSuffixOf s ||
  (chars "_list").isSuffixOf s || (chars "_destroy").isSuffixOf s ||
  (chars "_partial_update").isSuffixOf s || (chars "_stats").isSuffixOf s

/-- Spec 4.4: auth/knowledge-panel marker substring. -/
def markerPattern (s : Str) : Bool :=
  strContains s (chars "_auth_") || strContains s (chars "authentication") ||
  strContains s (chars "knowledge_panel")

/-- The code's single per-segment disjunction regrouped into the spec's
three pattern families: the marker tests sit between the action-verb prefix
tests and the action-verb suffix tests in the source, so the regrouping is a
permutation of the disjuncts. -/
theorem segmentIsApi_regroup (s : Str) :
    segmentIsApi s =
      (httpVerbPattern s || actionVerbPattern s || markerPattern s) := by
  unfold segmentIsApi httpVerbPattern actionVerbPattern markerPattern
  cases strContains s (chars "_auth_") <;>
    cases strContains s (chars "authentication") <;>
      cases strContains s (chars "knowledge_panel") <;>
        simp only [Bool.true_or, Bool.or_true, Bool.false_or, Bool.or_false,
          Bool.or_assoc]

/-- C6: a route is classified api-reference exactly when some segment
matches an HTTP-verb pattern, an action-verb pattern, or an
auth/knowledge-panel marker substring, or the full route contains one of
the fixed namespace pairs anywhere in the sequence (co-occurrence only);
in particular `["Open-prices", "prices", "get-list"]` is api-reference. -/
theorem isApiPage_iff (slug : List Str) :
    (isApiPage (some slug) = true ↔
      (∃ s ∈ slug, httpVerbPattern s = true ∨ actionVerbPattern s = true ∨
        markerPattern s = true) ∨ routePairsApi slug = true) ∧
    isApiPage (some [chars "Open-prices", chars "prices", chars "get-list"]) = true := by
  constructor
  · simp only [isApiPage, List.any_eq_true, segmentIsApi_regroup, Bool.or_eq_true,
      or_assoc]
  · have hseg : segmentIsApi (chars "get-list") = true := by decide
    simp only [isApiPage, Bool.or_eq_true, List.any_eq_true]
    exact Or.inl ⟨chars "get-list", by simp, hseg⟩

/-!
## Content Path Generator (`generatePaths`, page.tsx lines 342–397) and the
raw-source lookup of `Page`.

Filesystem paths are modelled relative to the process working directory, so
`join(process.cwd(), "content/docs", x)` is `joinP contentRoot x` with
`contentRoot` the injected content-root path.
-/

/-- From page.tsx: the ordered candidate list for `basePath`
(`params.slug?.join("/") || "index"`), with the fumadocs `(docs)` folder
convention injected after the first segment (when the slug is non-empty)
and after the second segment (when it has at least two). -/
def generatePaths (root : Str) (slug? : Option (List Str)) (basePath : Str) :
    List Str :=
  let direct := joinP root (basePath ++ chars ".mdx")
  let idx := joinP (joinP root basePath) (chars "index.mdx")
  match slug? with
  | some (s0 :: s1 :: rest) =>
    let w1 := joinSegs (s0 :: chars "(docs)" :: s1 :: rest)
    let w2 := joinSegs (s0 :: s1 :: chars "(docs)" :: rest)
    [direct, idx,
     joinP root (w1 ++ chars ".mdx"), joinP (joinP root w1) (chars "index.mdx"),
     joinP root (w2 ++ chars ".mdx"), joinP (joinP root w2) (chars "index.mdx")]
  | some [s0] =>
    let w1 := joinSegs [s0, chars "(docs)"]
    [direct, idx,
     joinP root (w1 ++ chars ".mdx"), joinP (joinP root w1) (chars "index.mdx")]
  | _ => [direct, idx]

/-- From page.tsx: `generatePaths(slugPath)` plus the root-index fallback
appended when the slug is absent or empty. -/
def possiblePaths (root : Str) (slug? : Option (List Str)) : List Str :=
  let joined := match slug? with
    | none => []
    | some slug => joinSegs slug
  let slugPath := if joined = [] then chars "index" else joined
  match slug? with
  | some (_ :: _) => generatePaths root slug? slugPath
  | _ => generatePaths root slug? slugPath ++ [joinP root (chars "index.mdx")]

/-- C5: for every route the Content Path Generator produces, in priority
order: the direct file `contentRoot/route.mdx`, the directory index
`contentRoot/route/index.mdx`, then — for the first and (when the route has
at least two segments) the second segment boundary — the `(docs)`-marker
variant route, each as direct file then directory index, and for the empty
(root) route the list instead carries no variants and ends with the
appended root index fallback `contentRoot/index.mdx`.  (An absent slug and
an empty slug both default the base path to `index`.) -/
theorem possiblePaths_priority_order (root s0 s1 : Str) (rest : List Str)
    (h0 : s0 ≠ []) :
    possiblePaths root none =
      [joinP root (chars "index" ++ chars ".mdx"),
       joinP (joinP root (chars "index")) (chars "index.mdx"),
       joinP root (chars "index.mdx")] ∧
    possiblePaths root (some []) =
      [joinP root (chars "index" ++ chars ".mdx"),
       joinP (joinP root (chars "index")) (chars "index.mdx"),
       joinP root (chars "index.mdx")] ∧
    possiblePaths root (some [s0]) =
      [joinP root (joinSegs [s0] ++ chars ".mdx"),
       joinP (joinP root (joinSegs [s0])) (chars "index.mdx"),
       joinP root (joinSegs ((List.take 1 [s0]) ++ [chars "(docs)"] ++ (List.drop 1 [s0])) ++ chars ".mdx"),
       joinP (joinP root (joinSegs ((List.take 1 [s0]) ++ [chars "(docs)"] ++ (List.drop 1 [s0])))) (chars "index.mdx")] ∧
    possiblePaths root (some (s0 :: s1 :: rest)) =
      [joinP root (joinSegs (s0 :: s1 :: rest) ++ chars ".mdx"),
       joinP (joinP root (joinSegs (s0 :: s1 :: rest))) (chars "index.mdx"),
       joinP root (joinSegs ((List.take 1 (s0 :: s1 :: rest)) ++ [chars "(docs)"] ++ (List.drop 1 (s0 :: s1 :: rest))) ++ chars ".mdx"),
       joinP (joinP root (joinSegs ((List.take 1 (s0 :: s1 :: rest)) ++ [chars "(docs)"] ++ (List.drop 1 (s0 :: s1 :: rest))))) (chars "index.mdx"),
       joinP root (joinSegs ((List.take 2 (s0 :: s1 :: rest)) ++ [chars "(docs)"] ++ (List.drop 2 (s0 :: s1 :: rest))) ++ chars ".mdx"),
       joinP (joinP root (joinSegs ((List.take 2 (s0 :: s1 :: rest)) ++ [chars "(docs)"] ++ (List.drop 2 (s0 :: s1 :: rest))))) (chars "index.mdx")] := by
  refine ⟨rfl, rfl, ?_, ?_⟩
  · simp only [possiblePaths, generatePaths, joinSegs, if_neg h0,
      List.take, List.drop, List.append_nil, List.nil_append,
      List.singleton_append]
  · have hne : joinSegs (s0 :: s1 :: rest) ≠ [] := by
      simp only [joinSegs]
      cases s0 with
      | nil => simp [chars]
      | cons a t => simp
    simp only [possiblePaths, generatePaths, if_neg hne,
      List.take, List.drop, List.append_nil, List.nil_append,
      List.singleton_append, List.cons_append]

theorem possiblePaths_priority_order_witness :
    possiblePaths (chars "content/docs") (some [chars "guide"]) =
      [chars "content/docs/guide.mdx",
       chars "content/docs/guide/index.mdx",
       chars "content/docs/guide/(docs).mdx",
       chars "content/docs/guide/(docs)/index.mdx"] := by
  have h := (possiblePaths_priority_order (chars "content/docs")
    (chars "guide") [] [] (by decide)).2.2.1
  rw [h]
  decide

/-!
## Route-gated raw-source lookup (`Page`, page.tsx lines 184–213 and
302–398)
-/

/-- From page.tsx: `params.slug && params.slug.length >= 3 &&
params.slug[0] === "Infra" && params.slug[1] === "reports"`. -/
def isReportPage (slug? : Option (List Str)) : Bool :=
  match slug? with
  | some (s0 :: s1 :: _ :: _) => s0 == chars "Infra" && s1 == chars "reports"
  | _ => false

/-- From page.tsx, report branch: the two candidate paths built from the
full route (`reportPath = params.slug.join("/")`), direct file then
directory index. -/
def reportPaths (root : Str) (slug : List Str) : List Str :=
  [joinP root (joinSegs slug ++ chars ".mdx"),
   joinP (joinP root (joinSegs slug)) (chars "index.mdx")]

/-- Render-time namespace classification (spec 4.4): report first, then
api-reference, default general-doc.  Schema routes carry no render-time
marker — they are synthesized by the Static Param Aggregator and render
through the general-doc path. -/
inductive RouteClass
  | report
  | apiReference
  | generalDoc
deriving DecidableEq

def classify (slug? : Option (List Str)) : RouteClass :=
  if isReportPage slug? then RouteClass.report
  else if isApiPage slug? then RouteClass.apiReference
  else RouteClass.generalDoc

/-- The ordered list of filesystem paths the `Page` function probes with
`readFile` for a given route: the two report candidates for a report route,
nothing at all for an api-reference route, and the full candidate list
otherwise. -/
def pageProbes (root : Str) (slug? : Option (List Str)) : List Str :=
  if isReportPage slug? then reportPaths root (slug?.getD [])
  else if isApiPage slug? then []
  else possiblePaths root slug?

/-- The `for ... try readFile ... break` loop over candidate paths: the
first successful read wins; every failure falls through to the next path;
`markdownContent` stays `""` when all reads fail. -/
def tryRead (fs : Str → Option Str) : List Str → Str
  | [] => []
  | p :: ps =>
    match fs p with
    | some content => content
    | none => tryRead fs ps

/-- The raw markdown content the page ends up with, for a filesystem `fs`
mapping a path to its content when it exists and is readable. -/
def pageMarkdown (fs : Str → Option Str) (root : Str)
    (slug? : Option (List Str)) : Str :=
  tryRead fs (pageProbes root slug?)

/-- C7: classification gates the raw-source lookup — an api-reference route
probes no candidate filesystem path and its raw markdown content stays
empty, while a general-doc route probes exactly the generated candidate
paths in order. -/
theorem classification_gates_lookup (fs : Str → Option Str) (root : Str)
    (slug? : Option (List Str)) :
    (classify slug? = RouteClass.apiReference →
      pageProbes root slug? = [] ∧ pageMarkdown fs root slug? = []) ∧
    (classify slug? = RouteClass.generalDoc →
      pageProbes root slug? = possiblePaths root slug?) := by
  constructor <;> intro h
  · unfold classify at h
    by_cases hr : isReportPage slug? = true
    · simp [hr] at h
    · by_cases ha : isApiPage slug? = true
      · refine ⟨by simp [pageProbes, hr, ha], ?_⟩
        simp [pageMarkdown, pageProbes, hr, ha, tryRead]
      · simp [hr, ha] at h
  · unfold classify at h
    by_cases hr : isReportPage slug? = true
    · simp [hr] at h
    · by_cases ha : isApiPage slug? = true
      · simp [hr, ha] at h
      · simp [pageProbes, hr, ha]

theorem classification_gates_lookup_witness :
    pageProbes (chars "content/docs")
      (some [chars "Open-prices", chars "prices", chars "get-list"]) = [] ∧
    pageMarkdown (fun _ => none) (chars "content/docs")
      (some [chars "Open-prices", chars "prices", chars "get-list"]) = [] :=
  (classification_gates_lookup (fun _ => none) (chars "content/docs")
    (some [chars "Open-prices", chars "prices", chars "get-list"])).1 (by decide)

/-- C10: for every report route (`Infra`, `reports`, at least one further
segment) the raw-source lookup tries exactly two candidate paths — the
direct file `contentRoot/route.mdx` then the directory index
`contentRoot/route/index.mdx`, built from the full route including the
`Infra/reports` prefix — with no `(docs)` variants and no root-index
fallback, and a failed read on both leaves the markdown content empty. -/
theorem reportRoute_two_probes (fs : Str → Option Str) (root a : Str)
    (rest : List Str) :
    pageProbes root (some (chars "Infra" :: chars "reports" :: a :: rest)) =
      [joinP root (joinSegs (chars "Infra" :: chars "reports" :: a :: rest) ++
         chars ".mdx"),
       joinP (joinP root (joinSegs (chars "Infra" :: chars "reports" :: a :: rest)))
         (chars "index.mdx")] ∧
    (fs (joinP root (joinSegs (chars "Infra" :: chars "reports" :: a :: rest) ++
         chars ".mdx")) = none →
     fs (joinP (joinP root (joinSegs (chars "Infra" :: chars "reports" :: a :: rest)))
         (chars "index.mdx")) = none →
     pageMarkdown fs root (some (chars "Infra" :: chars "reports" :: a :: rest)) = []) := by
  have hr : isReportPage (some (chars "Infra" :: chars "reports" :: a :: rest)) = true := by
    simp [isReportPage]
  constructor
  · simp [pageProbes, hr, reportPaths]
  · intro h1 h2
    simp [pageMarkdown, pageProbes, hr, reportPaths, tryRead, h1, h2]

theorem reportRoute_two_probes_witness :
    pageMarkdown (fun _ => none) (chars "content/docs")
      (some [chars "Infra", chars "reports", chars "r1"]) = [] :=
  (reportRoute_two_probes (fun _ => none) (chars "content/docs")
    (chars "r1") []).2 rfl rfl

/-!
## Static Param Aggregator (`getSchemaPaths`, page.tsx lines 26–177, and
`generateStaticParams`, lines 412–431)

The read-and-parse of `ref/api.yaml` is the one external input: its outcome
is either `Except.error ()` (the `catch` branch: the file could not be read,
the YAML could not be parsed, or the parsed document was not an object) or
`Except.ok names` with `names` the keys of `apiSpec.components?.schemas ||
{}` (an absent mapping giving `[]`).
-/

structure SlugParam where
  slug : List Str
  lang : Str
deriving DecidableEq

/-- Lower-case the schema name and replace every `-` with `_`
(`toLowerCase()` followed by the global-regex `replace` call). -/
def schemaNameToUrl (name : Str) : Str :=
  (name.map Char.toLower).map (fun c => if c = '-' then '_' else c)

def baseSchemasParam : SlugParam :=
  ⟨[chars "Product-Opener", chars "api", chars "schemas"], chars "en"⟩

def schemaEntry (n : String) : SlugParam :=
  ⟨[chars "Product-Opener", chars "api", chars "schemas", chars "schemas",
    chars n], chars "en"⟩

/-- From page.tsx: the hardcoded fallback returned when reading or parsing
`api.yaml` fails — the bare schemas path plus sixteen known schema routes. -/
def fallbackSchemaPaths : List SlugParam :=
  [baseSchemasParam,
   schemaEntry "product_base", schemaEntry "product_misc",
   schemaEntry "product_tags", schemaEntry "product_images",
   schemaEntry "product_eco_score", schemaEntry "product_ingredients",
   schemaEntry "product_nutrition", schemaEntry "product_nutriscore",
   schemaEntry "product_quality", schemaEntry "product_extended",
   schemaEntry "product_metadata", schemaEntry "product_knowledge_panels",
   schemaEntry "product_attribute_groups", schemaEntry "product",
   schemaEntry "ingredient", schemaEntry "nutrient"]

/-- From page.tsx: on a successful read, one route per schema name
(normalized) under `.../api/schemas/schemas/<name>`, with the base schemas
path unshifted to the front; on failure, the hardcoded fallback. -/
def getSchemaPaths (readResult : Except Unit (List Str)) : List SlugParam :=
  match readResult with
  | Except.ok schemaNames =>
    baseSchemasParam ::
      schemaNames.map (fun n =>
        ⟨[chars "Product-Opener", chars "api", chars "schemas", chars "schemas",
          schemaNameToUrl n], chars "en"⟩)
  | Except.error _ => fallbackSchemaPaths

/-- A raw route param as validated by `generateStaticParams`: `slug` is
`none` when the property is absent or not an array, and a whole entry may
be `none` (a nullish param).  `lang` is carried when present. -/
structure RawParam where
  slug : Option (List Str)
  lang : Option Str
deriving DecidableEq

/-- From page.tsx: merge the docs params, the reports params prefixed with
`Infra/reports`, and the schema params, then filter out entries without
a well-formed slug array. -/
def generateStaticParams (docsParams : List (Option RawParam))
    (reportsParams : List (List Str))
    (readResult : Except Unit (List Str)) : List (Option RawParam) :=
  (docsParams ++
   reportsParams.map
     (fun s => some (RawParam.mk (some (chars "Infra" :: chars "reports" :: s)) none)) ++
   (getSchemaPaths readResult).map
     (fun p => some (RawParam.mk (some p.slug) (some p.lang)))).filter
    (fun p? =>
      match p? with
      | none => false
      | some p => p.slug.isSome)

/-- C8: when the external specification document cannot be read or parsed,
route enumeration falls back to the fixed list instead of failing: whatever
the docs and reports sources contribute, the result has at least 17 entries
and includes the bare schemas-index route; the failure never escapes the
aggregation, which is a total function of the read outcome. -/
theorem enumerateRoutes_fallback (docsParams : List (Option RawParam))
    (reportsParams : List (List Str)) :
    17 ≤ (generateStaticParams docsParams reportsParams
            (Except.error ())).length ∧
    some (⟨some [chars "Product-Opener", chars "api", chars "schemas"],
        some (chars "en")⟩ : RawParam) ∈
      generateStaticParams docsParams reportsParams (Except.error ()) := by
  unfold generateStaticParams
  have hc : (((getSchemaPaths (Except.error ())).map
      (fun p => some (RawParam.mk (some p.slug) (some p.lang)))).filter
      (fun p? =>
        match p? with
        | none => false
        | some p => p.slug.isSome)).length = 17 := by decide
  have hmem : some (⟨some [chars "Product-Opener", chars "api", chars "schemas"],
      some (chars "en")⟩ : RawParam) ∈
      ((getSchemaPaths (Except.error ())).map
        (fun p => some (RawParam.mk (some p.slug) (some p.lang)))).filter
      (fun p? =>
        match p? with
        | none => false
        | some p => p.slug.isSome) := by decide
  constructor
  · rw [List.filter_append, List.filter_append, List.length_append,
      List.length_append, hc]
    omega
  · rw [List.filter_append]
    exact List.mem_append_right _ hmem

/-- C9 counterexample: a specification document that reads and parses
successfully but whose schema mapping is empty is a possible content
outcome, and for it enumeration yields a single schema entry — not the
17 statically-known routes; the `product_base` route of the static set is
absent. -/
theorem enumerateRoutes_static_set_cex :
    (generateStaticParams [] [] (Except.ok [])).length = 1 ∧
    some (RawParam.mk
        (some [chars "Product-Opener", chars "api", chars "schemas",
          chars "schemas", chars "product_base"]) (some (chars "en"))) ∉
      generateStaticParams [] [] (Except.ok []) := by
  decide

/-- C9 (amended): for every possible content and read outcome of the
external specification document, route enumeration produces at least the
bare schemas-index route `["Product-Opener", "api", "schemas"]`; the full
statically-known 17-entry set is guaranteed only on a read or parse
failure, while a successful parse contributes the index route plus one
route per parsed schema name (possibly fewer than 17). -/
theorem enumerateRoutes_always_base (docsParams : List (Option RawParam))
    (reportsParams : List (List Str))
    (readResult : Except Unit (List Str)) :
    some (RawParam.mk
        (some [chars "Product-Opener", chars "api", chars "schemas"])
        (some (chars "en"))) ∈
      generateStaticParams docsParams reportsParams readResult := by
  unfold generateStaticParams
  rw [List.filter_append]
  refine List.mem_append_right _ ?_
  cases readResult with
  | error e =>
    cases e
    decide
  | ok names =>
    simp only [getSchemaPaths, List.map_cons, List.filter_cons]
    rw [if_pos (by decide)]
    exact List.mem_cons_self _ _
